import Mathlib

/-!
Shallow embedding of the tower-defence simulation core
(`tower_defence.py`) and proofs about its specification.

Positions are modelled as real numbers (the source uses Python floats and
`math.sqrt`); money, lives, health, damage and frame counters are integers,
exactly as in the source.  Python object identity (used by `list.remove` and
the `in` membership tests on enemies) is modelled by a numeric `id` handle on
enemies, supplied by the game when an enemy spawns; the random `shuffle` of a
wave's spawn list is modelled as an arbitrary permutation parameter.
-/

namespace TowerDefence

open Classical

/-- Constant from the source: screen width in pixels. -/
def SCREEN_WIDTH : ℤ := 1000

/-- Constant from the source: screen height in pixels. -/
def SCREEN_HEIGHT : ℤ := 700

/-- Constant from the source: starting money. -/
def STARTING_MONEY : ℤ := 500

/-- Constant from the source: starting lives. -/
def STARTING_LIVES : ℤ := 20

/-- Constant from the source: cost to place a tower. -/
def TOWER_COST : ℤ := 100

/-- Constant from the source: cost to upgrade a tower. -/
def UPGRADE_COST : ℤ := 150

/-- `GameState` enumeration of the source. -/
inductive GameState where
  | menu
  | playing
  | paused
  | gameOver
  | victory
deriving DecidableEq

/-- `EnemyType` enumeration of the source. -/
inductive EnemyType where
  | basic
  | fast
  | tank
deriving DecidableEq

/-- `TowerType` enumeration of the source. -/
inductive TowerType where
  | basic
  | sniper
  | splash
deriving DecidableEq

/-- `Enemy._get_max_health`. -/
def EnemyType.maxHealth : EnemyType → ℤ
  | .basic => 100
  | .fast => 60
  | .tank => 250

/-- `Enemy._get_speed`. -/
def EnemyType.speed : EnemyType → ℝ
  | .basic => 2
  | .fast => 4
  | .tank => 1

/-- `Enemy._get_reward`. -/
def EnemyType.reward : EnemyType → ℤ
  | .basic => 20
  | .fast => 15
  | .tank => 50

/-- The `Enemy` object.  The `id` field is the identity handle; the path is
shared game state and is passed to `Enemy.move` explicitly. -/
structure Enemy where
  id : ℕ
  type : EnemyType
  pathIndex : ℕ
  x : ℝ
  y : ℝ
  health : ℤ
  maxHealth : ℤ
  speed : ℝ
  reward : ℤ

/-- The `Projectile` object.  `targetId` is the identity handle of the target
enemy (a non-owning reference in the source). -/
structure Projectile where
  x : ℝ
  y : ℝ
  targetId : ℕ
  damage : ℤ
  speed : ℝ

/-- The `Tower` object.  `target` holds the identity handle of the current
target enemy, if any. -/
structure Tower where
  x : ℤ
  y : ℤ
  type : TowerType
  level : ℤ
  range : ℤ
  damage : ℤ
  fireRate : ℤ
  lastShot : ℤ
  target : Option ℕ

/-- The `Wave` object. -/
structure Wave where
  waveNumber : ℕ
  enemiesToSpawn : List EnemyType
  spawnTimer : ℕ
  spawnDelay : ℕ
  complete : Bool

/-- The `Game` object (simulation-relevant fields; rendering state such as
`hover_pos` is out of core scope).  `nextId` is the supply of fresh enemy
identity handles. -/
structure Game where
  state : GameState
  frameCount : ℤ
  path : List (ℤ × ℤ)
  towers : List Tower
  enemies : List Enemy
  projectiles : List Projectile
  money : ℤ
  lives : ℤ
  currentWave : ℕ
  wave : Option Wave
  waveActive : Bool
  selectedTower : Option ℕ
  placingTower : Bool
  nextId : ℕ

/-- The fixed enemy path of `Game.__init__`. -/
def gamePath : List (ℤ × ℤ) :=
  [(0, 200), (200, 200), (200, 400), (400, 400),
   (400, 200), (600, 200), (600, 500), (800, 500),
   (800, 300), (1000, 300)]

/-- Waypoint `i` of a path, as in `path[i]` (always used in bounds). -/
def wpZ (path : List (ℤ × ℤ)) (i : ℕ) : ℤ × ℤ := path.getD i (0, 0)

/-- Waypoint `i` of a path as a real point. -/
noncomputable def wp (path : List (ℤ × ℤ)) (i : ℕ) : ℝ × ℝ :=
  (((wpZ path i).1 : ℝ), ((wpZ path i).2 : ℝ))

/-- `Enemy.__init__`: a fresh enemy of the given type at the path's first
waypoint. -/
noncomputable def mkEnemy (id : ℕ) (ty : EnemyType) (path : List (ℤ × ℤ)) : Enemy :=
  { id := id
    type := ty
    pathIndex := 0
    x := ((wpZ path 0).1 : ℝ)
    y := ((wpZ path 0).2 : ℝ)
    health := ty.maxHealth
    maxHealth := ty.maxHealth
    speed := ty.speed
    reward := ty.reward }

/-- `Enemy.move`: advance along the path by `speed`, snapping to the next
waypoint when within reach.  Returns the updated enemy and whether the end of
the path was reached this call. -/
noncomputable def Enemy.move (path : List (ℤ × ℤ)) (e : Enemy) : Enemy × Bool :=
  if path.length - 1 ≤ e.pathIndex then (e, true)
  else
    let t := wpZ path (e.pathIndex + 1)
    let dx : ℝ := (t.1 : ℝ) - e.x
    let dy : ℝ := (t.2 : ℝ) - e.y
    let distance : ℝ := Real.sqrt (dx ^ 2 + dy ^ 2)
    if distance ≤ e.speed then
      if path.length - 1 ≤ e.pathIndex + 1 then
        ({ e with pathIndex := e.pathIndex + 1 }, true)
      else
        ({ e with pathIndex := e.pathIndex + 1
                  x := ((wpZ path (e.pathIndex + 1)).1 : ℝ)
                  y := ((wpZ path (e.pathIndex + 1)).2 : ℝ) }, false)
    else
      ({ e with x := e.x + dx / distance * e.speed
                y := e.y + dy / distance * e.speed }, false)

/-- `Projectile.move`: advance toward the target's current position `(tx, ty)`
by `speed`.  Returns the moved projectile and whether the target was reached
this call. -/
noncomputable def Projectile.move (tx ty : ℝ) (p : Projectile) : Projectile × Bool :=
  let dx : ℝ := tx - p.x
  let dy : ℝ := ty - p.y
  let distance : ℝ := Real.sqrt (dx ^ 2 + dy ^ 2)
  if distance ≤ p.speed then (p, true)
  else ({ p with x := p.x + dx / distance * p.speed
                 y := p.y + dy / distance * p.speed }, false)

/-- `Tower._get_range`. -/
def Tower.getRange (ty : TowerType) (level : ℤ) : ℤ :=
  (if ty = .sniper then 150 else if ty = .basic then 120 else 100) + (level - 1) * 20

/-- `Tower._get_damage`. -/
def Tower.getDamage (ty : TowerType) (level : ℤ) : ℤ :=
  (if ty = .sniper then 50 else if ty = .basic then 30 else 20) + (level - 1) * 15

/-- `Tower._get_fire_rate`. -/
def Tower.getFireRate : TowerType → ℤ
  | .basic => 30
  | .sniper => 90
  | .splash => 60

/-- `Tower.__init__` with the default `BASIC` type, as used by
`Game.place_tower`. -/
def mkTower (x y : ℤ) : Tower :=
  { x := x
    y := y
    type := .basic
    level := 1
    range := Tower.getRange .basic 1
    damage := Tower.getDamage .basic 1
    fireRate := Tower.getFireRate .basic
    lastShot := 0
    target := none }

/-- `Tower.upgrade`. -/
def Tower.upgrade (t : Tower) : Tower :=
  if t.level < 3 then
    { t with level := t.level + 1
             range := Tower.getRange t.type (t.level + 1)
             damage := Tower.getDamage t.type (t.level + 1) }
  else t

/-- `Tower.can_upgrade`. -/
def Tower.canUpgrade (t : Tower) : Prop := t.level < 3

instance (t : Tower) : Decidable t.canUpgrade := by
  unfold Tower.canUpgrade
  infer_instance

/-- Euclidean distance from a tower to an enemy, as computed inside
`Tower.find_target`. -/
noncomputable def enemyDist (t : Tower) (e : Enemy) : ℝ :=
  Real.sqrt ((e.x - (t.x : ℝ)) ^ 2 + (e.y - (t.y : ℝ)) ^ 2)

/-- `Tower.find_target`: closest enemy whose distance is within range, the
first such enemy winning ties.  The accumulator carries the running closest
enemy together with its distance (`min_distance` in the source; the initial
`float('inf')` is represented by the empty accumulator, for which the
`distance < min_distance` conjunct is vacuous). -/
noncomputable def Tower.findTarget (t : Tower) (enemies : List Enemy) : Option Enemy :=
  (enemies.foldl
    (fun acc e =>
      match acc with
      | none => if enemyDist t e ≤ (t.range : ℝ) then some (e, enemyDist t e) else none
      | some c =>
        if enemyDist t e ≤ (t.range : ℝ) ∧ enemyDist t e < c.2 then some (e, enemyDist t e)
        else some c)
    none).map Prod.fst

/-- `Tower.shoot`: fire at the current target if the cooldown has elapsed and
a target exists. -/
noncomputable def Tower.shoot (t : Tower) (currentFrame : ℤ) : Tower × Option Projectile :=
  match t.target with
  | some tgt =>
    if t.fireRate ≤ currentFrame - t.lastShot then
      ({ t with lastShot := currentFrame },
       some { x := (t.x : ℝ), y := (t.y : ℝ), targetId := tgt, damage := t.damage, speed := 8 })
    else (t, none)
  | none => (t, none)

/-- `Wave._generate_enemies` before the final `random.shuffle`: the
deterministic enemy-type counts for a wave number. -/
def generateEnemies (waveNumber : ℕ) : List EnemyType :=
  let enemies := List.replicate (min (5 + waveNumber * 2) 20) EnemyType.basic
  let enemies :=
    if 2 ≤ waveNumber then enemies ++ List.replicate (min waveNumber 10) EnemyType.fast
    else enemies
  let enemies :=
    if 4 ≤ waveNumber then enemies ++ List.replicate (min ((waveNumber - 3) / 2) 5) EnemyType.tank
    else enemies
  enemies

/-- `Wave.update`: mark complete when the pending queue is empty, otherwise
advance the spawn timer and possibly dequeue the next enemy type (the
`current_frame` argument is unused in the source as well). -/
def Wave.update (w : Wave) (_currentFrame : ℤ) : Wave × Option EnemyType :=
  if w.enemiesToSpawn.isEmpty then ({ w with complete := true }, none)
  else
    if w.spawnDelay ≤ w.spawnTimer + 1 then
      ({ w with spawnTimer := 0, enemiesToSpawn := w.enemiesToSpawn.tail },
       w.enemiesToSpawn.head?)
    else ({ w with spawnTimer := w.spawnTimer + 1 }, none)

/-- `Game.reset_game`. -/
def Game.resetGame (g : Game) : Game :=
  { g with towers := []
           enemies := []
           projectiles := []
           money := STARTING_MONEY
           lives := STARTING_LIVES
           currentWave := 0
           wave := none
           waveActive := false
           selectedTower := none
           placingTower := false
           frameCount := 0
           state := GameState.playing }

/-- `Game.start_next_wave`.  The freshly generated spawn list is shuffled by
`random.shuffle`; the resulting permutation is taken as the argument
`shuffled` (the randomization seam of the specification). -/
def Game.startNextWave (g : Game) (shuffled : List EnemyType) : Game :=
  { g with currentWave := g.currentWave + 1
           wave := some { waveNumber := g.currentWave + 1
                          enemiesToSpawn := shuffled
                          spawnTimer := 0
                          spawnDelay := 60
                          complete := false }
           waveActive := true
           money := if 1 < g.currentWave + 1 then g.money + 50 else g.money }

/-- `Game.can_place_tower`: no path waypoint within distance 40, no tower
within distance 50, and not inside the reserved UI strip. -/
def Game.canPlaceTower (g : Game) (x y : ℤ) : Prop :=
  (∀ p ∈ g.path, ¬ Real.sqrt ((((x : ℝ) - p.1)) ^ 2 + (((y : ℝ) - p.2)) ^ 2) < 40) ∧
  (∀ t ∈ g.towers, ¬ Real.sqrt (((x : ℝ) - t.x) ^ 2 + ((y : ℝ) - t.y) ^ 2) < 50) ∧
  ¬ SCREEN_HEIGHT - 100 < y

/-- `Game.place_tower`. -/
noncomputable def Game.placeTower (g : Game) (x y : ℤ) : Game :=
  if TOWER_COST ≤ g.money ∧ g.canPlaceTower x y then
    { g with towers := g.towers ++ [mkTower x y]
             money := g.money - TOWER_COST
             placingTower := false }
  else g

/-- `Game.upgrade_tower`, addressing the selected tower by its index in the
tower list (the identity handle of the source's object reference). -/
def Game.upgradeTower (g : Game) (i : ℕ) : Game :=
  match g.towers.get? i with
  | none => g
  | some t =>
    if UPGRADE_COST ≤ g.money ∧ t.canUpgrade then
      { g with towers := g.towers.set i t.upgrade
               money := g.money - UPGRADE_COST }
    else g

/-- The wave section of `Game.update`: advance spawning, or detect a cleared
wave (victory at wave 10). -/
noncomputable def spawnStep (g : Game) : Game :=
  match g.wave with
  | none => g
  | some w =>
    if ¬ w.complete then
      match Wave.update w g.frameCount with
      | (w', none) => { g with wave := some w' }
      | (w', some ty) =>
        { g with wave := some w'
                 enemies := g.enemies ++ [mkEnemy g.nextId ty g.path]
                 nextId := g.nextId + 1 }
    else if g.enemies.isEmpty then
      if 10 ≤ g.currentWave then { g with state := GameState.victory }
      else { g with waveActive := false }
    else g

/-- The enemy section of `Game.update`: move every enemy of the snapshot; an
enemy reaching the end is removed and costs a life, and the state is set to
game over whenever lives drop to 0 or below. -/
noncomputable def moveEnemiesStep (g : Game) : Game :=
  let r := g.enemies.foldl
    (fun acc e =>
      let m := Enemy.move g.path e
      if m.2 then
        (acc.1, acc.2.1 - 1, if acc.2.1 - 1 ≤ 0 then GameState.gameOver else acc.2.2)
      else (acc.1 ++ [m.1], acc.2.1, acc.2.2))
    ([], g.lives, g.state)
  { g with enemies := r.1, lives := r.2.1, state := r.2.2 }

/-- The tower section of `Game.update`: every tower re-acquires its target
from the current live enemies and attempts to shoot; emitted projectiles are
appended. -/
noncomputable def towersStep (g : Game) : Game :=
  let r := g.towers.foldl
    (fun acc t =>
      let s := Tower.shoot { t with target := (Tower.findTarget t g.enemies).map Enemy.id }
        g.frameCount
      match s.2 with
      | some p => (acc.1 ++ [s.1], acc.2 ++ [p])
      | none => (acc.1 ++ [s.1], acc.2))
    ([], [])
  { g with towers := r.1, projectiles := g.projectiles ++ r.2 }

/-- One projectile of the projectile section of `Game.update`: the projectile
moves toward its target's current position; a projectile whose target is no
longer live is discarded, a projectile that arrives damages its target
(removing it and crediting its reward on a kill), and any other projectile is
kept. -/
noncomputable def projStep (acc : List Enemy × ℤ × List Projectile) (p : Projectile) :
    List Enemy × ℤ × List Projectile :=
  match acc.1.find? (fun e => e.id == p.targetId) with
  | none => (acc.1, acc.2.1, acc.2.2)
  | some e =>
    let m := Projectile.move e.x e.y p
    if m.2 then
      if e.health - p.damage ≤ 0 then
        (acc.1.eraseP (fun a => a.id == e.id), acc.2.1 + e.reward, acc.2.2)
      else
        (acc.1.map (fun a => if a.id = e.id then { e with health := e.health - p.damage } else a),
         acc.2.1, acc.2.2)
    else (acc.1, acc.2.1, acc.2.2 ++ [m.1])

/-- The projectile section of `Game.update`, folded over the snapshot of the
live projectiles. -/
noncomputable def projectilesStep (g : Game) : Game :=
  let r := g.projectiles.foldl projStep (g.enemies, g.money, [])
  { g with enemies := r.1, money := r.2.1, projectiles := r.2.2 }

/-- `Game.update`: a no-op unless playing; otherwise increment the frame
counter and run the wave, enemy, tower and projectile sections in order. -/
noncomputable def Game.update (g : Game) : Game :=
  if g.state ≠ GameState.playing then g
  else
    projectilesStep (towersStep (moveEnemiesStep (spawnStep
      { g with frameCount := g.frameCount + 1 })))

/-- `Game.__init__`: the initial session state. -/
def initialGame : Game :=
  { state := GameState.menu
    frameCount := 0
    path := gamePath
    towers := []
    enemies := []
    projectiles := []
    money := STARTING_MONEY
    lives := STARTING_LIVES
    currentWave := 0
    wave := none
    waveActive := false
    selectedTower := none
    placingTower := false
    nextId := 0 }

/-! ### Branch lemmas for `Enemy.move` -/

/-- Distance from an enemy to its next waypoint, as computed in
`Enemy.move`. -/
noncomputable def nextWpDist (path : List (ℤ × ℤ)) (e : Enemy) : ℝ :=
  Real.sqrt ((((wpZ path (e.pathIndex + 1)).1 : ℝ) - e.x) ^ 2 +
    (((wpZ path (e.pathIndex + 1)).2 : ℝ) - e.y) ^ 2)

lemma Enemy.move_of_last {path : List (ℤ × ℤ)} {e : Enemy}
    (h : path.length - 1 ≤ e.pathIndex) : Enemy.move path e = (e, true) := by
  simp only [Enemy.move]
  rw [if_pos h]

lemma Enemy.move_of_snap_last {path : List (ℤ × ℤ)} {e : Enemy}
    (h1 : ¬ path.length - 1 ≤ e.pathIndex)
    (h2 : nextWpDist path e ≤ e.speed)
    (h3 : path.length - 1 ≤ e.pathIndex + 1) :
    Enemy.move path e = ({ e with pathIndex := e.pathIndex + 1 }, true) := by
  simp only [Enemy.move, nextWpDist] at h2 ⊢
  rw [if_neg h1, if_pos h2, if_pos h3]

lemma Enemy.move_of_snap {path : List (ℤ × ℤ)} {e : Enemy}
    (h1 : ¬ path.length - 1 ≤ e.pathIndex)
    (h2 : nextWpDist path e ≤ e.speed)
    (h3 : ¬ path.length - 1 ≤ e.pathIndex + 1) :
    Enemy.move path e =
      ({ e with pathIndex := e.pathIndex + 1
                x := ((wpZ path (e.pathIndex + 1)).1 : ℝ)
                y := ((wpZ path (e.pathIndex + 1)).2 : ℝ) }, false) := by
  simp only [Enemy.move, nextWpDist] at h2 ⊢
  rw [if_neg h1, if_pos h2, if_neg h3]

lemma Enemy.move_of_step {path : List (ℤ × ℤ)} {e : Enemy}
    (h1 : ¬ path.length - 1 ≤ e.pathIndex)
    (h2 : ¬ nextWpDist path e ≤ e.speed) :
    Enemy.move path e =
      ({ e with
          x := e.x + (((wpZ path (e.pathIndex + 1)).1 : ℝ) - e.x) / nextWpDist path e * e.speed
          y := e.y + (((wpZ path (e.pathIndex + 1)).2 : ℝ) - e.y) / nextWpDist path e * e.speed },
       false) := by
  simp only [Enemy.move, nextWpDist] at h2 ⊢
  rw [if_neg h1, if_neg h2]

lemma Enemy.move_fst_reward {path : List (ℤ × ℤ)} (e : Enemy) :
    (Enemy.move path e).1.reward = e.reward := by
  simp only [Enemy.move]
  split
  · rfl
  · split
    · split <;> rfl
    · rfl

/-! ### C3: reset from an end screen -/

/-- A session that has reached the game-over screen. -/
def gameOverExample : Game :=
  { initialGame with state := GameState.gameOver, lives := 0 }

/-- C3 counterexample: the explicit reset from the GameOver screen sets the
game state to Playing, not to Menu as the claim states. -/
theorem resetGame_not_menu :
    gameOverExample.state = GameState.gameOver ∧
    (Game.resetGame gameOverExample).state = GameState.playing ∧
    GameState.playing ≠ GameState.menu :=
  ⟨rfl, rfl, by decide⟩

/-- C3 (amended): from the GameOver or Victory state, the explicit reset
command transitions the game state to Playing (restarting at once rather than
returning to the menu), and reinitializes money to 500, lives to 20, the wave
counter to 0, and empties the enemy, tower, and projectile collections. -/
theorem resetGame_spec (g : Game)
    (h : g.state = GameState.gameOver ∨ g.state = GameState.victory) :
    (Game.resetGame g).state = GameState.playing ∧
    (Game.resetGame g).money = 500 ∧
    (Game.resetGame g).lives = 20 ∧
    (Game.resetGame g).currentWave = 0 ∧
    (Game.resetGame g).enemies = [] ∧
    (Game.resetGame g).towers = [] ∧
    (Game.resetGame g).projectiles = [] :=
  ⟨rfl, rfl, rfl, rfl, rfl, rfl, rfl⟩

theorem resetGame_spec_witness :
    (gameOverExample.state = GameState.gameOver ∨
      gameOverExample.state = GameState.victory) ∧
    (Game.resetGame gameOverExample).state = GameState.playing ∧
    (Game.resetGame gameOverExample).money = 500 ∧
    (Game.resetGame gameOverExample).lives = 20 ∧
    (Game.resetGame gameOverExample).currentWave = 0 ∧
    (Game.resetGame gameOverExample).enemies = [] ∧
    (Game.resetGame gameOverExample).towers = [] ∧
    (Game.resetGame gameOverExample).projectiles = [] :=
  ⟨Or.inl rfl, resetGame_spec gameOverExample (Or.inl rfl)⟩

/-! ### C5: wave spawn-list composition -/

/-- C5: for every wave number `N ≥ 1`, any shuffle of the generated spawn
list consists of exactly `min (5 + 2N) 20` Basic enemies, `min N 10` Fast
enemies when `N ≥ 2` (else none), and `min ((N − 3) / 2) 5` Tank enemies when
`N ≥ 4` (else none), its length being the sum of those counts. -/
theorem generateEnemies_counts (N : ℕ) (hN : 1 ≤ N) (l : List EnemyType)
    (hl : l.Perm (generateEnemies N)) :
    l.count EnemyType.basic = min (5 + N * 2) 20 ∧
    l.count EnemyType.fast = (if 2 ≤ N then min N 10 else 0) ∧
    l.count EnemyType.tank = (if 4 ≤ N then min ((N - 3) / 2) 5 else 0) ∧
    l.length = min (5 + N * 2) 20 + ((if 2 ≤ N then min N 10 else 0) +
      (if 4 ≤ N then min ((N - 3) / 2) 5 else 0)) := by
  rw [hl.count_eq, hl.count_eq, hl.count_eq, hl.length_eq]
  unfold generateEnemies
  split <;> split <;>
    simp [List.count_append, List.count_replicate, List.length_append]

theorem generateEnemies_counts_witness :
    1 ≤ 5 ∧
    (generateEnemies 5).count EnemyType.basic = min (5 + 5 * 2) 20 ∧
    (generateEnemies 5).count EnemyType.fast = (if 2 ≤ 5 then min 5 10 else 0) ∧
    (generateEnemies 5).count EnemyType.tank = (if 4 ≤ 5 then min ((5 - 3) / 2) 5 else 0) ∧
    (generateEnemies 5).length = min (5 + 5 * 2) 20 + ((if 2 ≤ 5 then min 5 10 else 0) +
      (if 4 ≤ 5 then min ((5 - 3) / 2) 5 else 0)) :=
  ⟨by decide, generateEnemies_counts 5 (by decide) (generateEnemies 5) (List.Perm.refl _)⟩

/-! ### C8: tower upgrade -/

/-- C8: upgrading a tower changes nothing when its level is already 3 or when
money is below 150; otherwise it deducts exactly 150, increments the level,
recomputes range and damage from the stat table (each +20 resp. +15 per
level), and leaves the fire rate unchanged. -/
lemma upgradeTower_eq (g : Game) (i : ℕ) (t : Tower)
    (ht : g.towers.get? i = some t) :
    g.upgradeTower i =
      if UPGRADE_COST ≤ g.money ∧ t.canUpgrade then
        { g with towers := g.towers.set i t.upgrade, money := g.money - UPGRADE_COST }
      else g := by
  unfold Game.upgradeTower
  rw [ht]

/-- C8: upgrading a tower changes nothing when its level is already 3 or when
money is below 150; otherwise it deducts exactly 150, increments the level,
recomputes range and damage from the stat table (each +20 resp. +15 per
level), and leaves the fire rate unchanged. -/
theorem upgradeTower_spec (g : Game) (i : ℕ) (t : Tower)
    (ht : g.towers.get? i = some t) :
    ((3 ≤ t.level ∨ g.money < UPGRADE_COST) → g.upgradeTower i = g) ∧
    (t.level < 3 → UPGRADE_COST ≤ g.money →
      g.upgradeTower i =
        { g with towers := g.towers.set i t.upgrade, money := g.money - UPGRADE_COST } ∧
      t.upgrade.level = t.level + 1 ∧
      t.upgrade.range = Tower.getRange t.type (t.level + 1) ∧
      t.upgrade.damage = Tower.getDamage t.type (t.level + 1) ∧
      t.upgrade.fireRate = t.fireRate ∧
      Tower.getRange t.type (t.level + 1) = Tower.getRange t.type t.level + 20 ∧
      Tower.getDamage t.type (t.level + 1) = Tower.getDamage t.type t.level + 15) := by
  constructor
  · intro h
    rw [upgradeTower_eq g i t ht]
    have hneg : ¬ (UPGRADE_COST ≤ g.money ∧ t.canUpgrade) := by
      unfold Tower.canUpgrade UPGRADE_COST at *
      omega
    rw [if_neg hneg]
  · intro h1 h2
    have hcond : UPGRADE_COST ≤ g.money ∧ t.canUpgrade := ⟨h2, h1⟩
    refine ⟨?_, ?_, ?_, ?_, ?_, ?_, ?_⟩
    · rw [upgradeTower_eq g i t ht, if_pos hcond]
    · unfold Tower.upgrade
      rw [if_pos h1]
    · unfold Tower.upgrade
      rw [if_pos h1]
    · unfold Tower.upgrade
      rw [if_pos h1]
    · unfold Tower.upgrade
      rw [if_pos h1]
    · unfold Tower.getRange
      ring
    · unfold Tower.getDamage
      ring

/-- A session with one tower and no money, for the upgrade no-op witness. -/
def poorGame : Game :=
  { initialGame with money := 0, towers := [mkTower 120 80] }

theorem upgradeTower_spec_witness :
    poorGame.towers.get? 0 = some (mkTower 120 80) ∧
    (3 ≤ (mkTower 120 80).level ∨ poorGame.money < UPGRADE_COST) ∧
    poorGame.upgradeTower 0 = poorGame :=
  ⟨rfl, Or.inr (by decide),
    (upgradeTower_spec poorGame 0 (mkTower 120 80) rfl).1 (Or.inr (by decide))⟩

/-! ### C7: tower firing discipline -/

lemma shoot_eq_none {t : Tower} (f : ℤ) (h : t.target = none) :
    Tower.shoot t f = (t, none) := by
  unfold Tower.shoot
  rw [h]

lemma shoot_eq_some {t : Tower} {tgt : ℕ} (f : ℤ) (h : t.target = some tgt) :
    Tower.shoot t f =
      if t.fireRate ≤ f - t.lastShot then
        ({ t with lastShot := f },
         some { x := (t.x : ℝ), y := (t.y : ℝ), targetId := tgt,
                damage := t.damage, speed := 8 })
      else (t, none) := by
  unfold Tower.shoot
  rw [h]

/-- C7: a tower emits a projectile exactly when the cooldown has elapsed
(`fireRate ≤ currentFrame − lastShot`) and it has a current target, the
emitted projectile starting at the tower and carrying its damage toward the
current target; firing resets `lastShot`, so two shots are never emitted
fewer than `fireRate` ticks apart, and a tower with no target never fires. -/
theorem shoot_spec (t : Tower) (f : ℤ) :
    (∀ t' p, Tower.shoot t f = (t', some p) ↔
      (t.fireRate ≤ f - t.lastShot ∧ ∃ tgt, t.target = some tgt ∧
        t' = { t with lastShot := f } ∧
        p = { x := (t.x : ℝ), y := (t.y : ℝ), targetId := tgt,
              damage := t.damage, speed := 8 })) ∧
    (t.target = none → Tower.shoot t f = (t, none)) ∧
    (f - t.lastShot < t.fireRate → Tower.shoot t f = (t, none)) ∧
    (∀ f', (Tower.shoot t f).2.isSome = true → f' - f < t.fireRate →
      (Tower.shoot (Tower.shoot t f).1 f').2 = none) := by
  refine ⟨?_, fun h => shoot_eq_none f h, ?_, ?_⟩
  · intro t' p
    have hcases : t.target = none ∨ ∃ tgt, t.target = some tgt := by
      cases t.target
      · exact Or.inl rfl
      · exact Or.inr ⟨_, rfl⟩
    rcases hcases with htg | ⟨tgt, htg⟩
    · rw [shoot_eq_none f htg]
      constructor
      · intro h
        cases (Prod.mk.injEq _ _ _ _ ▸ h).2
      · rintro ⟨_, tgt, htgt, _⟩
        rw [htg] at htgt
        cases htgt
    · rw [shoot_eq_some f htg]
      by_cases hc : t.fireRate ≤ f - t.lastShot
      · rw [if_pos hc]
        constructor
        · intro h
          have h1 := (Prod.mk.injEq _ _ _ _ ▸ h).1
          have h2 := (Prod.mk.injEq _ _ _ _ ▸ h).2
          exact ⟨hc, tgt, htg, h1.symm, (Option.some.injEq _ _ ▸ h2).symm⟩
        · rintro ⟨-, tgt', htgt', ht', hp⟩
          rw [htg] at htgt'
          injection htgt' with heq
          subst heq
          rw [ht', hp]
      · rw [if_neg hc]
        constructor
        · intro h
          cases (Prod.mk.injEq _ _ _ _ ▸ h).2
        · rintro ⟨hc', _⟩
          exact absurd hc' hc
  · intro h
    cases htg : t.target with
    | none => exact shoot_eq_none f htg
    | some tgt =>
      rw [shoot_eq_some f htg, if_neg (by omega)]
  · intro f' hsome hlt
    cases htg : t.target with
    | none =>
      rw [shoot_eq_none f htg] at hsome
      cases hsome
    | some tgt =>
      rw [shoot_eq_some f htg] at hsome ⊢
      by_cases hc : t.fireRate ≤ f - t.lastShot
      · rw [if_pos hc] at hsome ⊢
        have : ({ t with lastShot := f } : Tower).target = some tgt := htg
        rw [shoot_eq_some f' this, if_neg (by simp only []; omega)]
      · rw [if_neg hc] at hsome
        cases hsome

theorem shoot_spec_witness :
    (mkTower 0 0).target = none ∧ Tower.shoot (mkTower 0 0) 5 = (mkTower 0 0, none) :=
  ⟨rfl, (shoot_spec (mkTower 0 0) 5).2.1 rfl⟩


/-! ### C2: tower placement -/

lemma dist_lt_iff (x a y b r : ℤ) (hr : 0 < r) :
    Real.sqrt (((x : ℝ) - a) ^ 2 + ((y : ℝ) - b) ^ 2) < (r : ℝ) ↔
      (x - a) ^ 2 + (y - b) ^ 2 < r ^ 2 := by
  rw [Real.sqrt_lt' (by exact_mod_cast hr)]
  constructor
  · intro h
    exact_mod_cast h
  · intro h
    exact_mod_cast h

lemma canPlaceTower_iff (g : Game) (x y : ℤ) :
    g.canPlaceTower x y ↔
      ((∀ p ∈ g.path, 1600 ≤ (x - p.1) ^ 2 + (y - p.2) ^ 2) ∧
       (∀ t ∈ g.towers, 2500 ≤ (x - t.x) ^ 2 + (y - t.y) ^ 2) ∧
       y ≤ SCREEN_HEIGHT - 100) := by
  unfold Game.canPlaceTower
  refine and_congr ?_ (and_congr ?_ ?_)
  · refine forall₂_congr fun p hp => ?_
    rw [show (40 : ℝ) = ((40 : ℤ) : ℝ) by norm_num,
      dist_lt_iff x p.1 y p.2 40 (by norm_num), not_lt]
    norm_num
  · refine forall₂_congr fun t ht => ?_
    rw [show (50 : ℝ) = ((50 : ℤ) : ℝ) by norm_num,
      dist_lt_iff x t.x y t.y 50 (by norm_num), not_lt]
    norm_num
  · exact not_lt

/-- C2: placing a tower at `(x, y)` leaves the whole session unchanged when
money is below 100 or when the position check fails (a path waypoint within
distance 40, an existing tower within distance 50, or inside the reserved UI
strip `y > 600`); in every other case it deducts exactly 100 and appends
exactly one new level-1 Basic tower at `(x, y)`. -/
theorem placeTower_spec (g : Game) (x y : ℤ) :
    (¬ (TOWER_COST ≤ g.money ∧ g.canPlaceTower x y) → g.placeTower x y = g) ∧
    (TOWER_COST ≤ g.money → g.canPlaceTower x y →
      g.placeTower x y =
        { g with towers := g.towers ++ [mkTower x y]
                 money := g.money - TOWER_COST
                 placingTower := false } ∧
      (mkTower x y).level = 1 ∧ (mkTower x y).type = TowerType.basic ∧
      (mkTower x y).x = x ∧ (mkTower x y).y = y) ∧
    (g.canPlaceTower x y ↔
      ((∀ p ∈ g.path, 1600 ≤ (x - p.1) ^ 2 + (y - p.2) ^ 2) ∧
       (∀ t ∈ g.towers, 2500 ≤ (x - t.x) ^ 2 + (y - t.y) ^ 2) ∧
       y ≤ SCREEN_HEIGHT - 100)) := by
  refine ⟨?_, ?_, canPlaceTower_iff g x y⟩
  · intro h
    unfold Game.placeTower
    rw [if_neg h]
  · intro h1 h2
    unfold Game.placeTower
    rw [if_pos ⟨h1, h2⟩]
    exact ⟨rfl, rfl, rfl, rfl, rfl⟩

theorem placeTower_spec_witness :
    TOWER_COST ≤ initialGame.money ∧ initialGame.canPlaceTower 500 560 ∧
    initialGame.placeTower 500 560 =
      { initialGame with towers := initialGame.towers ++ [mkTower 500 560]
                         money := initialGame.money - TOWER_COST
                         placingTower := false } := by
  have hc : initialGame.canPlaceTower 500 560 :=
    (placeTower_spec initialGame 500 560).2.2.mpr (by decide)
  exact ⟨by decide, hc, ((placeTower_spec initialGame 500 560).2.1 (by decide) hc).1⟩


/-! ### C6: target acquisition -/

/-- An enemy is within range of a tower. -/
noncomputable def InRange (t : Tower) (e : Enemy) : Prop :=
  enemyDist t e ≤ (t.range : ℝ)

lemma ftFold_some (t : Tower) :
    ∀ (l : List Enemy) (c : Enemy), InRange t c →
      ∃ e, l.foldl
          (fun acc e =>
            match acc with
            | none => if enemyDist t e ≤ (t.range : ℝ) then some (e, enemyDist t e) else none
            | some c =>
              if enemyDist t e ≤ (t.range : ℝ) ∧ enemyDist t e < c.2 then some (e, enemyDist t e)
              else some c)
          (some (c, enemyDist t c)) = some (e, enemyDist t e) ∧ InRange t e ∧
        ((e = c ∧ ∀ a ∈ l, InRange t a → enemyDist t c ≤ enemyDist t a) ∨
          (∃ l1 l2, l = l1 ++ e :: l2 ∧ enemyDist t e < enemyDist t c ∧
            (∀ a ∈ l1, InRange t a → enemyDist t e < enemyDist t a) ∧
            (∀ a ∈ l2, InRange t a → enemyDist t e ≤ enemyDist t a))) := by
  intro l
  induction l with
  | nil =>
    intro c hc
    exact ⟨c, rfl, hc, Or.inl ⟨rfl, by simp⟩⟩
  | cons a l ih =>
    intro c hc
    rw [List.foldl_cons]
    dsimp only
    by_cases hcond : enemyDist t a ≤ (t.range : ℝ) ∧ enemyDist t a < enemyDist t c
    · rw [if_pos hcond]
      obtain ⟨e, he, her, hcase⟩ := ih a hcond.1
      refine ⟨e, he, her, Or.inr ?_⟩
      rcases hcase with ⟨rfl, hall⟩ | ⟨l1, l2, rfl, hlt, h1, h2⟩
      · exact ⟨[], l, rfl, hcond.2, by simp, hall⟩
      · refine ⟨a :: l1, l2, rfl, lt_trans hlt hcond.2, ?_, h2⟩
        intro x hx hxr
        rcases List.mem_cons.mp hx with rfl | hx'
        · exact hlt
        · exact h1 x hx' hxr
    · rw [if_neg hcond]
      obtain ⟨e, he, her, hcase⟩ := ih c hc
      refine ⟨e, he, her, ?_⟩
      rcases hcase with ⟨rfl, hall⟩ | ⟨l1, l2, rfl, hlt, h1, h2⟩
      · refine Or.inl ⟨rfl, ?_⟩
        intro x hx hxr
        rcases List.mem_cons.mp hx with rfl | hx'
        · exact le_of_not_lt fun hlt' => hcond ⟨hxr, hlt'⟩
        · exact hall x hx' hxr
      · refine Or.inr ⟨a :: l1, l2, rfl, hlt, ?_, h2⟩
        intro x hx hxr
        rcases List.mem_cons.mp hx with rfl | hx'
        · exact lt_of_lt_of_le hlt (le_of_not_lt fun hlt' => hcond ⟨hxr, hlt'⟩)
        · exact h1 x hx' hxr


lemma ftFold_none_start (t : Tower) :
    ∀ l : List Enemy,
      (l.foldl
          (fun acc e =>
            match acc with
            | none => if enemyDist t e ≤ (t.range : ℝ) then some (e, enemyDist t e) else none
            | some c =>
              if enemyDist t e ≤ (t.range : ℝ) ∧ enemyDist t e < c.2 then some (e, enemyDist t e)
              else some c)
          none = none ↔ ∀ e ∈ l, ¬ InRange t e) ∧
      (∀ e d, l.foldl
          (fun acc e =>
            match acc with
            | none => if enemyDist t e ≤ (t.range : ℝ) then some (e, enemyDist t e) else none
            | some c =>
              if enemyDist t e ≤ (t.range : ℝ) ∧ enemyDist t e < c.2 then some (e, enemyDist t e)
              else some c)
          none = some (e, d) → d = enemyDist t e ∧ InRange t e ∧
        ∃ l1 l2, l = l1 ++ e :: l2 ∧
          (∀ a ∈ l1, InRange t a → enemyDist t e < enemyDist t a) ∧
          (∀ a ∈ l2, InRange t a → enemyDist t e ≤ enemyDist t a)) := by
  intro l
  induction l with
  | nil =>
    constructor
    · simp
    · intro e d h
      cases h
  | cons a l ih =>
    simp only [List.foldl_cons]
    by_cases hr : InRange t a
    · have hr' : enemyDist t a ≤ (t.range : ℝ) := hr
      rw [if_pos hr']
      obtain ⟨e0, he0, her0, hcase0⟩ := ftFold_some t l a hr
      constructor
      · constructor
        · intro h
          rw [h] at he0
          cases he0
        · intro h
          exact absurd hr (h a (List.mem_cons_self a l))
      · intro e d h
        rw [he0] at h
        injection h with h
        injection h with h1 h2
        subst h1
        subst h2
        refine ⟨rfl, her0, ?_⟩
        rcases hcase0 with ⟨rfl, hall⟩ | ⟨l1, l2, rfl, hlt, h1, h2⟩
        · exact ⟨[], l, rfl, by simp, hall⟩
        · refine ⟨a :: l1, l2, rfl, ?_, h2⟩
          intro x hx hxr
          rcases List.mem_cons.mp hx with rfl | hx'
          · exact hlt
          · exact h1 x hx' hxr
    · have hr' : ¬ enemyDist t a ≤ (t.range : ℝ) := hr
      rw [if_neg hr']
      constructor
      · rw [ih.1]
        constructor
        · intro h e he
          rcases List.mem_cons.mp he with rfl | he'
          · exact hr
          · exact h e he'
        · intro h e he
          exact h e (List.mem_cons_of_mem a he)
      · intro e d h
        obtain ⟨hd, her, l1, l2, rfl, h1, h2⟩ := ih.2 e d h
        refine ⟨hd, her, a :: l1, l2, rfl, ?_, h2⟩
        intro x hx hxr
        rcases List.mem_cons.mp hx with rfl | hx'
        · exact absurd hxr hr
        · exact h1 x hx' hxr

lemma shoot_fst_target (t : Tower) (f : ℤ) : (Tower.shoot t f).1.target = t.target := by
  have hcases : t.target = none ∨ ∃ tgt, t.target = some tgt := by
    cases t.target
    · exact Or.inl rfl
    · exact Or.inr ⟨_, rfl⟩
  rcases hcases with htg | ⟨tgt, htg⟩
  · rw [shoot_eq_none f htg]
  · rw [shoot_eq_some f htg]
    split <;> rfl

lemma towersFold (g : Game) :
    ∀ (l : List Tower) (acc : List Tower × List Projectile),
      l.foldl
        (fun acc t =>
          let s := Tower.shoot { t with target := (Tower.findTarget t g.enemies).map Enemy.id }
            g.frameCount
          match s.2 with
          | some p => (acc.1 ++ [s.1], acc.2 ++ [p])
          | none => (acc.1 ++ [s.1], acc.2)) acc =
      (acc.1 ++ l.map (fun t =>
          (Tower.shoot { t with target := (Tower.findTarget t g.enemies).map Enemy.id }
            g.frameCount).1),
       acc.2 ++ l.filterMap (fun t =>
          (Tower.shoot { t with target := (Tower.findTarget t g.enemies).map Enemy.id }
            g.frameCount).2)) := by
  intro l
  induction l with
  | nil =>
    intro acc
    simp
  | cons a l ih =>
    intro acc
    rw [List.foldl_cons]
    dsimp only
    cases hs : (Tower.shoot { a with target := (Tower.findTarget a g.enemies).map Enemy.id }
        g.frameCount).2 with
    | none =>
      rw [ih]
      simp [hs]
    | some p =>
      rw [ih]
      simp [hs]

lemma towersStep_eq (g : Game) :
    towersStep g =
      { g with
        towers := g.towers.map (fun t =>
          (Tower.shoot { t with target := (Tower.findTarget t g.enemies).map Enemy.id }
            g.frameCount).1)
        projectiles := g.projectiles ++ g.towers.filterMap (fun t =>
          (Tower.shoot { t with target := (Tower.findTarget t g.enemies).map Enemy.id }
            g.frameCount).2) } := by
  unfold towersStep
  rw [towersFold g g.towers ([], [])]
  simp

/-- C6: target acquisition returns an enemy within range of minimal distance,
ties broken in favour of the first such enemy in iteration order, and none
when no enemy is in range; after the tower phase of a tick every tower's
target is exactly the one recomputed from the current live enemy set. -/
theorem findTarget_spec (t : Tower) (es : List Enemy) :
    (Tower.findTarget t es = none ↔ ∀ e ∈ es, ¬ enemyDist t e ≤ (t.range : ℝ)) ∧
    (∀ e, Tower.findTarget t es = some e →
      enemyDist t e ≤ (t.range : ℝ) ∧
      (∀ a ∈ es, enemyDist t a ≤ (t.range : ℝ) → enemyDist t e ≤ enemyDist t a) ∧
      ∃ l1 l2, es = l1 ++ e :: l2 ∧
        ∀ a ∈ l1, enemyDist t a ≤ (t.range : ℝ) → enemyDist t e < enemyDist t a) ∧
    (∀ (g : Game) (i : ℕ) (t0 : Tower), g.towers.get? i = some t0 →
      ∃ t1, (towersStep g).towers.get? i = some t1 ∧
        t1.target = (Tower.findTarget t0 g.enemies).map Enemy.id) := by
  refine ⟨?_, ?_, ?_⟩
  · unfold Tower.findTarget
    rw [Option.map_eq_none']
    exact (ftFold_none_start t es).1
  · intro e h
    unfold Tower.findTarget at h
    rw [Option.map_eq_some'] at h
    obtain ⟨c, hc, hce⟩ := h
    obtain ⟨c1, c2⟩ := c
    obtain ⟨hd, her, l1, l2, heq, h1, h2⟩ := (ftFold_none_start t es).2 c1 c2 hc
    cases hce
    refine ⟨her, ?_, l1, l2, heq, h1⟩
    intro a ha har
    rw [heq] at ha
    rcases List.mem_append.mp ha with ha1 | ha2
    · exact (h1 a ha1 har).le
    · rcases List.mem_cons.mp ha2 with rfl | ha2'
      · exact le_rfl
      · exact h2 a ha2' har
  · intro g i t0 h
    refine ⟨(Tower.shoot { t0 with target := (Tower.findTarget t0 g.enemies).map Enemy.id }
      g.frameCount).1, ?_, shoot_fst_target _ _⟩
    rw [show (towersStep g).towers = g.towers.map (fun t =>
        (Tower.shoot { t with target := (Tower.findTarget t g.enemies).map Enemy.id }
          g.frameCount).1) by rw [towersStep_eq]]
    rw [List.get?_map, h]
    rfl

theorem findTarget_spec_witness :
    Tower.findTarget (mkTower 0 0) [] = none :=
  (findTarget_spec (mkTower 0 0) []).1.mpr (by simp)


/-! ### Characterizations of the tick phases -/

/-- Enemies surviving the movement phase, in order. -/
noncomputable def moveSurvivors (path : List (ℤ × ℤ)) (es : List Enemy) : List Enemy :=
  es.filterMap (fun e => if (Enemy.move path e).2 then none else some (Enemy.move path e).1)

/-- Number of enemies of `es` that reach the end of the path this tick. -/
noncomputable def completedCount (path : List (ℤ × ℤ)) (es : List Enemy) : ℕ :=
  (es.filter (fun e => (Enemy.move path e).2)).length

lemma moveFold (g : Game) :
    ∀ (es : List Enemy) (acc : List Enemy × ℤ × GameState),
      es.foldl
        (fun acc e =>
          let m := Enemy.move g.path e
          if m.2 then
            (acc.1, acc.2.1 - 1, if acc.2.1 - 1 ≤ 0 then GameState.gameOver else acc.2.2)
          else (acc.1 ++ [m.1], acc.2.1, acc.2.2)) acc =
      (acc.1 ++ moveSurvivors g.path es,
       acc.2.1 - completedCount g.path es,
       if 1 ≤ completedCount g.path es ∧ acc.2.1 - completedCount g.path es ≤ 0
         then GameState.gameOver else acc.2.2) := by
  intro es
  induction es with
  | nil =>
    intro acc
    simp [moveSurvivors, completedCount]
  | cons a es ih =>
    intro acc
    rw [List.foldl_cons]
    dsimp only
    have hsurv := fun h : (Enemy.move g.path a).2 = true =>
      show moveSurvivors g.path (a :: es) = moveSurvivors g.path es by
        simp [moveSurvivors, List.filterMap_cons, h]
    have hsurv' := fun h : (Enemy.move g.path a).2 = false =>
      show moveSurvivors g.path (a :: es) = (Enemy.move g.path a).1 :: moveSurvivors g.path es by
        simp [moveSurvivors, List.filterMap_cons, h]
    have hcnt := fun h : (Enemy.move g.path a).2 = true =>
      show completedCount g.path (a :: es) = completedCount g.path es + 1 by
        simp [completedCount, List.filter_cons, h]
    have hcnt' := fun h : (Enemy.move g.path a).2 = false =>
      show completedCount g.path (a :: es) = completedCount g.path es by
        simp [completedCount, List.filter_cons, h]
    by_cases hm : (Enemy.move g.path a).2 = true
    · rw [if_pos hm, ih, hsurv hm, hcnt hm]
      refine congrArg (fun z => (_, z)) ?_
      refine congrArg₂ (fun z1 z2 => (z1, z2)) (by push_cast; ring) ?_
      by_cases h1 : 1 ≤ completedCount g.path es ∧
          acc.2.1 - 1 - (completedCount g.path es : ℤ) ≤ 0
      · rw [if_pos h1, if_pos (by omega)]
      · rw [if_neg h1]
        by_cases h2 : acc.2.1 - 1 ≤ 0
        · rw [if_pos h2, if_pos (by omega)]
        · rw [if_neg h2, if_neg (by omega)]
    · have hm' : (Enemy.move g.path a).2 = false := by
        cases h : (Enemy.move g.path a).2
        · rfl
        · exact absurd h hm
      rw [if_neg hm, ih, hsurv' hm', hcnt' hm']
      simp [List.append_assoc]

lemma moveEnemiesStep_eq (g : Game) :
    moveEnemiesStep g =
      { g with enemies := moveSurvivors g.path g.enemies
               lives := g.lives - completedCount g.path g.enemies
               state := if 1 ≤ completedCount g.path g.enemies ∧
                   g.lives - completedCount g.path g.enemies ≤ 0
                 then GameState.gameOver else g.state } := by
  unfold moveEnemiesStep
  rw [moveFold g g.enemies ([], g.lives, g.state)]
  simp

lemma reward_nonneg (ty : EnemyType) : 0 ≤ ty.reward := by
  cases ty <;> norm_num [EnemyType.reward]

lemma spawnStep_facts (g : Game) :
    (spawnStep g).money = g.money ∧ (spawnStep g).lives = g.lives ∧
    (spawnStep g).path = g.path ∧
    (spawnStep g).enemies.length ≤ g.enemies.length + 1 ∧
    ((∀ e ∈ g.enemies, 0 ≤ e.reward) → ∀ e ∈ (spawnStep g).enemies, 0 ≤ e.reward) := by
  unfold spawnStep
  split
  · exact ⟨rfl, rfl, rfl, by (try dsimp only); omega, fun h => h⟩
  · split
    · split
      · exact ⟨rfl, rfl, rfl, by (try dsimp only); omega, fun h => h⟩
      · refine ⟨rfl, rfl, rfl, by (try dsimp only); simp, ?_⟩
        intro h e he
        rcases List.mem_append.mp he with he1 | he2
        · exact h e he1
        · rcases List.mem_cons.mp he2 with rfl | h2
          · exact reward_nonneg _
          · cases h2
    · split
      · split
        · exact ⟨rfl, rfl, rfl, by (try dsimp only); omega, fun h => h⟩
        · exact ⟨rfl, rfl, rfl, by (try dsimp only); omega, fun h => h⟩
      · exact ⟨rfl, rfl, rfl, by (try dsimp only); omega, fun h => h⟩

lemma projStep_of_not_found {es : List Enemy} {m : ℤ} {ks : List Projectile} {p : Projectile}
    (h : es.find? (fun e => e.id == p.targetId) = none) :
    projStep (es, m, ks) p = (es, m, ks) := by
  unfold projStep
  dsimp only
  rw [h]

lemma projStep_of_found {es : List Enemy} {m : ℤ} {ks : List Projectile} {p : Projectile}
    {e : Enemy} (h : es.find? (fun e => e.id == p.targetId) = some e) :
    projStep (es, m, ks) p =
      if (Projectile.move e.x e.y p).2 then
        if e.health - p.damage ≤ 0 then
          (es.eraseP (fun a => a.id == e.id), m + e.reward, ks)
        else
          (es.map (fun a => if a.id = e.id then { e with health := e.health - p.damage } else a),
           m, ks)
      else (es, m, ks ++ [(Projectile.move e.x e.y p).1]) := by
  unfold projStep
  dsimp only
  rw [h]


lemma mem_eraseP_of_mem_of_neg {α : Type} {q : α → Bool} {a : α} :
    ∀ {l : List α}, a ∈ l → q a = false → a ∈ l.eraseP q := by
  intro l
  induction l with
  | nil =>
    intro h
    cases h
  | cons b l ih =>
    intro hmem hq
    rw [List.eraseP_cons]
    cases hb : q b with
    | true =>
      rcases List.mem_cons.mp hmem with rfl | h2
      · rw [hb] at hq
        cases hq
      · simpa using h2
    | false =>
      rcases List.mem_cons.mp hmem with rfl | h2
      · simp
      · simpa using Or.inr (ih h2 hq)

/-- C9: a projectile whose target is no longer in the live enemy set is
discarded by the projectile phase without damaging any enemy and without
changing money; when the target is live, damage (and reward on a kill) is
applied only to that target, every other enemy surviving the step untouched,
and money changes only by the dead target's reward. -/
theorem projStep_spec (es : List Enemy) (m : ℤ) (ks : List Projectile) (p : Projectile) :
    ((∀ e ∈ es, e.id ≠ p.targetId) → projStep (es, m, ks) p = (es, m, ks)) ∧
    (∀ e, es.find? (fun a => a.id == p.targetId) = some e →
      (¬ (Projectile.move e.x e.y p).2 = true →
        projStep (es, m, ks) p = (es, m, ks ++ [(Projectile.move e.x e.y p).1])) ∧
      ((Projectile.move e.x e.y p).2 = true → e.health - p.damage ≤ 0 →
        projStep (es, m, ks) p = (es.eraseP (fun a => a.id == e.id), m + e.reward, ks)) ∧
      ((Projectile.move e.x e.y p).2 = true → 0 < e.health - p.damage →
        projStep (es, m, ks) p =
          (es.map (fun a => if a.id = e.id then { e with health := e.health - p.damage } else a),
           m, ks))) ∧
    (∀ e' ∈ es, e'.id ≠ p.targetId → e' ∈ (projStep (es, m, ks) p).1) ∧
    ((projStep (es, m, ks) p).2.1 = m ∨
      ∃ e, es.find? (fun a => a.id == p.targetId) = some e ∧
        (Projectile.move e.x e.y p).2 = true ∧ e.health - p.damage ≤ 0 ∧
        (projStep (es, m, ks) p).2.1 = m + e.reward) := by
  refine ⟨?_, ?_, ?_, ?_⟩
  · intro h
    have hf : es.find? (fun a => a.id == p.targetId) = none := by
      rw [List.find?_eq_none]
      intro x hx
      simpa using h x hx
    exact projStep_of_not_found hf
  · intro e he
    refine ⟨?_, ?_, ?_⟩
    · intro hmv
      rw [projStep_of_found he, if_neg hmv]
    · intro hmv hk
      rw [projStep_of_found he, if_pos hmv, if_pos hk]
    · intro hmv hk
      rw [projStep_of_found he, if_pos hmv, if_neg (by omega)]
  · intro e' he' hne
    cases hf : es.find? (fun a => a.id == p.targetId) with
    | none =>
      rw [projStep_of_not_found hf]
      exact he'
    | some e =>
      have hid : e.id = p.targetId := by
        have := List.find?_some hf
        simpa using this
      have hne' : e'.id ≠ e.id := by
        rw [hid]
        exact hne
      rw [projStep_of_found hf]
      split_ifs with h1 h2
      · exact mem_eraseP_of_mem_of_neg he' (by simpa using hne')
      · have := List.mem_map_of_mem
          (fun a => if a.id = e.id then { e with health := e.health - p.damage } else a) he'
        dsimp only at this
        rw [if_neg hne'] at this
        exact this
      · exact he'
  · cases hf : es.find? (fun a => a.id == p.targetId) with
    | none =>
      rw [projStep_of_not_found hf]
      exact Or.inl rfl
    | some e =>
      rw [projStep_of_found hf]
      split_ifs with h1 h2
      · exact Or.inr ⟨e, rfl, h1, h2, rfl⟩
      · exact Or.inl rfl
      · exact Or.inl rfl

/-- A stray projectile whose target id matches no live enemy. -/
def strayShot : Projectile :=
  { x := 0, y := 0, targetId := 7, damage := 10, speed := 8 }

/-- A live enemy whose id differs from the stray shot's target. -/
noncomputable def bystander : Enemy := mkEnemy 3 EnemyType.basic gamePath

theorem projStep_spec_witness :
    (∀ e ∈ [bystander], e.id ≠ strayShot.targetId) ∧
    projStep ([bystander], 5, []) strayShot = ([bystander], 5, []) := by
  have h : ∀ e ∈ [bystander], e.id ≠ strayShot.targetId := by
    intro e he
    rcases List.mem_cons.mp he with rfl | h2
    · show bystander.id ≠ strayShot.targetId
      norm_num [bystander, mkEnemy, strayShot]
    · cases h2
  exact ⟨h, (projStep_spec [bystander] 5 [] strayShot).1 h⟩

lemma projStep_money_mono (acc : List Enemy × ℤ × List Projectile) (p : Projectile)
    (h : ∀ e ∈ acc.1, 0 ≤ e.reward) :
    acc.2.1 ≤ (projStep acc p).2.1 ∧ ∀ e ∈ (projStep acc p).1, 0 ≤ e.reward := by
  obtain ⟨es, m, ks⟩ := acc
  cases hf : es.find? (fun a => a.id == p.targetId) with
  | none =>
    rw [projStep_of_not_found hf]
    exact ⟨le_refl _, h⟩
  | some e =>
    have her : 0 ≤ e.reward := h e (List.mem_of_find?_eq_some hf)
    rw [projStep_of_found hf]
    split_ifs with h1 h2
    · refine ⟨by dsimp only; omega, ?_⟩
      intro x hx
      exact h x ((List.eraseP_sublist es).subset hx)
    · refine ⟨le_refl _, ?_⟩
      intro x hx
      obtain ⟨a, ha, hax⟩ := List.mem_map.mp hx
      by_cases hid : a.id = e.id
      · rw [if_pos hid] at hax
        rw [← hax]
        exact her
      · rw [if_neg hid] at hax
        rw [← hax]
        exact h a ha
    · exact ⟨le_refl _, h⟩

lemma projFold_money (ps : List Projectile) :
    ∀ acc : List Enemy × ℤ × List Projectile, (∀ e ∈ acc.1, 0 ≤ e.reward) →
      acc.2.1 ≤ (ps.foldl projStep acc).2.1 ∧
      ∀ e ∈ (ps.foldl projStep acc).1, 0 ≤ e.reward := by
  induction ps with
  | nil =>
    intro acc h
    exact ⟨le_refl _, h⟩
  | cons p ps ih =>
    intro acc h
    rw [List.foldl_cons]
    obtain ⟨h1, h2⟩ := projStep_money_mono acc p h
    obtain ⟨h3, h4⟩ := ih (projStep acc p) h2
    exact ⟨le_trans h1 h3, h4⟩

lemma projectilesStep_facts (g : Game) (h : ∀ e ∈ g.enemies, 0 ≤ e.reward) :
    g.money ≤ (projectilesStep g).money ∧ (projectilesStep g).lives = g.lives ∧
    (projectilesStep g).state = g.state := by
  unfold projectilesStep
  obtain ⟨h1, _⟩ := projFold_money g.projectiles (g.enemies, g.money, []) h
  exact ⟨h1, rfl, rfl⟩

lemma towersStep_fields (g : Game) :
    (towersStep g).money = g.money ∧ (towersStep g).lives = g.lives ∧
    (towersStep g).enemies = g.enemies ∧ (towersStep g).state = g.state ∧
    (towersStep g).path = g.path := by
  rw [towersStep_eq]
  exact ⟨rfl, rfl, rfl, rfl, rfl⟩

lemma towersStep_state (g : Game) (s : GameState) :
    towersStep { g with state := s } = { towersStep g with state := s } := by
  rw [towersStep_eq, towersStep_eq]

lemma projectilesStep_state (g : Game) (s : GameState) :
    projectilesStep { g with state := s } = { projectilesStep g with state := s } := by
  unfold projectilesStep
  rfl

lemma moveSurvivors_reward (path : List (ℤ × ℤ)) (es : List Enemy)
    (h : ∀ e ∈ es, 0 ≤ e.reward) :
    ∀ e ∈ moveSurvivors path es, 0 ≤ e.reward := by
  intro e he
  obtain ⟨a, ha, hfa⟩ := List.mem_filterMap.mp he
  by_cases hm : (Enemy.move path a).2 = true
  · rw [if_pos hm] at hfa
    cases hfa
  · rw [if_neg hm] at hfa
    injection hfa with hfa
    rw [← hfa, Enemy.move_fst_reward]
    exact h a ha

lemma completedCount_le (path : List (ℤ × ℤ)) (es : List Enemy) :
    completedCount path es ≤ es.length :=
  List.length_filter_le _ _


/-! ### C1 and C10: the full tick -/

lemma update_facts (g : Game) (hm : 0 ≤ g.money) (hr : ∀ e ∈ g.enemies, 0 ≤ e.reward) :
    0 ≤ (Game.update g).money ∧
    g.lives - (g.enemies.length + 1) ≤ (Game.update g).lives := by
  unfold Game.update
  split
  · exact ⟨hm, by omega⟩
  · obtain ⟨s1m, s1l, s1p, s1len, s1r⟩ :=
      spawnStep_facts { g with frameCount := g.frameCount + 1 }
    set g1 := spawnStep { g with frameCount := g.frameCount + 1 } with hg1
    have h1r : ∀ e ∈ g1.enemies, 0 ≤ e.reward := s1r hr
    have hmv := moveEnemiesStep_eq g1
    set g2 := moveEnemiesStep g1 with hg2
    have h2m : g2.money = g1.money := by rw [hmv]
    have h2l : g2.lives = g1.lives - completedCount g1.path g1.enemies := by rw [hmv]
    have h2r : ∀ e ∈ g2.enemies, 0 ≤ e.reward := by
      rw [hmv]
      exact moveSurvivors_reward _ _ h1r
    obtain ⟨t1, t2, t3, t4, t5⟩ := towersStep_fields g2
    set g3 := towersStep g2 with hg3
    have h3r : ∀ e ∈ g3.enemies, 0 ≤ e.reward := by
      rw [t3]
      exact h2r
    obtain ⟨p1, p2, p3⟩ := projectilesStep_facts g3 h3r
    have hcnt : (completedCount g1.path g1.enemies : ℤ) ≤ (g1.enemies.length : ℤ) := by
      exact_mod_cast completedCount_le g1.path g1.enemies
    have hm1 : g1.money = g.money := s1m
    have hl1 : g1.lives = g.lives := s1l
    have hlen1 : (g1.enemies.length : ℤ) ≤ (g.enemies.length : ℤ) + 1 := by
      exact_mod_cast s1len
    constructor
    · omega
    · omega

/-- C1 (amended): money stays non-negative under the per-tick update,
placeTower, upgradeTower and startNextWave; none of the commands changes
lives; the per-tick update decrements lives by exactly one per enemy reaching
the path end with no clamping, so lives stays non-negative whenever it is at
least the number of enemies that could complete this tick (the live enemies
plus a possible same-tick spawn), but can go below zero otherwise. -/
theorem money_lives_nonneg (g : Game) (x y : ℤ) (i : ℕ) (sh : List EnemyType)
    (hm : 0 ≤ g.money) (hl : 0 ≤ g.lives) (hr : ∀ e ∈ g.enemies, 0 ≤ e.reward) :
    0 ≤ (g.placeTower x y).money ∧ (g.placeTower x y).lives = g.lives ∧
    0 ≤ (g.upgradeTower i).money ∧ (g.upgradeTower i).lives = g.lives ∧
    0 ≤ (g.startNextWave sh).money ∧ (g.startNextWave sh).lives = g.lives ∧
    0 ≤ (Game.update g).money ∧
    g.lives - (g.enemies.length + 1) ≤ (Game.update g).lives ∧
    ((g.enemies.length : ℤ) + 1 ≤ g.lives → 0 ≤ (Game.update g).lives) := by
  obtain ⟨u1, u2⟩ := update_facts g hm hr
  refine ⟨?_, ?_, ?_, ?_, ?_, ?_, u1, u2, fun hle => by omega⟩
  · unfold Game.placeTower
    split
    · rename_i hcond
      dsimp only
      unfold TOWER_COST at hcond ⊢
      omega
    · exact hm
  · unfold Game.placeTower
    split
    · rfl
    · rfl
  · unfold Game.upgradeTower
    split
    · exact hm
    · split
      · rename_i hcond
        (try dsimp only)
        unfold UPGRADE_COST at hcond ⊢
        omega
      · exact hm
  · unfold Game.upgradeTower
    split
    · rfl
    · split
      · rfl
      · rfl
  · unfold Game.startNextWave
    dsimp only
    split
    · omega
    · exact hm
  · unfold Game.startNextWave
    rfl

theorem money_lives_nonneg_witness :
    0 ≤ initialGame.money ∧ 0 ≤ initialGame.lives ∧
    (∀ e ∈ initialGame.enemies, 0 ≤ e.reward) ∧
    0 ≤ (initialGame.placeTower 500 560).money ∧
    (initialGame.placeTower 500 560).lives = initialGame.lives ∧
    0 ≤ (initialGame.upgradeTower 0).money ∧
    (initialGame.upgradeTower 0).lives = initialGame.lives ∧
    0 ≤ (initialGame.startNextWave []).money ∧
    (initialGame.startNextWave []).lives = initialGame.lives ∧
    0 ≤ (Game.update initialGame).money ∧
    initialGame.lives - (initialGame.enemies.length + 1) ≤ (Game.update initialGame).lives ∧
    ((initialGame.enemies.length : ℤ) + 1 ≤ initialGame.lives →
      0 ≤ (Game.update initialGame).lives) := by
  have hr : ∀ e ∈ initialGame.enemies, 0 ≤ e.reward := by
    intro e he
    cases he
  exact ⟨by norm_num [initialGame, STARTING_MONEY], by norm_num [initialGame, STARTING_LIVES],
    hr, money_lives_nonneg initialGame 500 560 0 [] (by norm_num [initialGame, STARTING_MONEY])
      (by norm_num [initialGame, STARTING_LIVES]) hr⟩

/-- C10: once a tick has begun while playing, the whole tick runs: the enemy
phase processes the entire snapshot (decrementing lives once per completing
enemy, entering GameOver exactly when at least one enemy completes and lives
drop to 0 or below), and the tower and projectile phases behave identically
whatever the game state set earlier in the tick; only a subsequent update
call, seeing a non-playing state, is a no-op. -/
theorem update_mid_tick_continues (g : Game) (h : g.state = GameState.playing) :
    Game.update g =
      projectilesStep (towersStep (moveEnemiesStep (spawnStep
        { g with frameCount := g.frameCount + 1 }))) ∧
    (∀ g2 : Game,
      (moveEnemiesStep g2).lives = g2.lives - completedCount g2.path g2.enemies ∧
      ((moveEnemiesStep g2).state = GameState.gameOver ↔
        ((1 ≤ completedCount g2.path g2.enemies ∧
          g2.lives - completedCount g2.path g2.enemies ≤ 0) ∨
         g2.state = GameState.gameOver))) ∧
    (∀ (g2 : Game) (s : GameState),
      towersStep { g2 with state := s } = { towersStep g2 with state := s }) ∧
    (∀ (g2 : Game) (s : GameState),
      projectilesStep { g2 with state := s } = { projectilesStep g2 with state := s }) ∧
    (∀ g2 : Game, g2.state ≠ GameState.playing → Game.update g2 = g2) := by
  refine ⟨?_, ?_, towersStep_state, projectilesStep_state, ?_⟩
  · unfold Game.update
    rw [if_neg (by simp [h])]
  · intro g2
    rw [moveEnemiesStep_eq]
    refine ⟨rfl, ?_⟩
    dsimp only
    split
    · rename_i hcond
      simp [hcond]
    · rename_i hcond
      constructor
      · intro hst
        exact Or.inr hst
      · intro hst
        rcases hst with hc | hst
        · exact absurd hc hcond
        · exact hst
  · intro g2 h2
    unfold Game.update
    rw [if_pos h2]

/-- A freshly started session (the state after clicking start on the menu). -/
def playingGame : Game := Game.resetGame initialGame

theorem update_mid_tick_continues_witness :
    playingGame.state = GameState.playing ∧
    Game.update playingGame =
      projectilesStep (towersStep (moveEnemiesStep (spawnStep
        { playingGame with frameCount := playingGame.frameCount + 1 }))) :=
  ⟨rfl, (update_mid_tick_continues playingGame rfl).1⟩


lemma spawnStep_of_complete (g : Game) (w : Wave) (hw : g.wave = some w)
    (hc : w.complete = true) (hne : ¬ g.enemies = []) : spawnStep g = g := by
  unfold spawnStep
  rw [hw]
  simp [hc, hne]

/-- A Basic enemy two pixels short of the final waypoint. -/
noncomputable def nearEndA : Enemy :=
  { id := 0, type := EnemyType.basic, pathIndex := 8, x := 998, y := 300,
    health := 100, maxHealth := 100, speed := 2, reward := 20 }

/-- A Fast enemy three pixels short of the final waypoint. -/
noncomputable def nearEndB : Enemy :=
  { id := 1, type := EnemyType.fast, pathIndex := 8, x := 997, y := 300,
    health := 60, maxHealth := 60, speed := 4, reward := 15 }

/-- The already exhausted wave of the endangered session below. -/
def endWave : Wave :=
  { waveNumber := 3, enemiesToSpawn := [], spawnTimer := 0, spawnDelay := 60, complete := true }

/-- A playing session on its last life with both enemies about to finish. -/
noncomputable def endangered : Game :=
  { initialGame with
    state := GameState.playing
    lives := 1
    currentWave := 3
    waveActive := true
    wave := some endWave
    enemies := [nearEndA, nearEndB]
    nextId := 2 }

lemma nearEndA_dist : nextWpDist gamePath nearEndA = 2 := by
  unfold nextWpDist
  norm_num [wpZ, gamePath, nearEndA]
  rw [show (4 : ℝ) = 2 ^ 2 by norm_num, Real.sqrt_sq (by norm_num : (0 : ℝ) ≤ 2)]

lemma nearEndB_dist : nextWpDist gamePath nearEndB = 3 := by
  unfold nextWpDist
  norm_num [wpZ, gamePath, nearEndB]
  rw [show (9 : ℝ) = 3 ^ 2 by norm_num, Real.sqrt_sq (by norm_num : (0 : ℝ) ≤ 3)]

lemma nearEndA_move : (Enemy.move gamePath nearEndA).2 = true := by
  rw [Enemy.move_of_snap_last (by norm_num [gamePath, nearEndA])
    (by rw [nearEndA_dist]; norm_num [nearEndA])
    (by norm_num [gamePath, nearEndA])]

lemma nearEndB_move : (Enemy.move gamePath nearEndB).2 = true := by
  rw [Enemy.move_of_snap_last (by norm_num [gamePath, nearEndB])
    (by rw [nearEndB_dist]; norm_num [nearEndB])
    (by norm_num [gamePath, nearEndB])]

lemma endangered_count : completedCount gamePath [nearEndA, nearEndB] = 2 := by
  unfold completedCount
  rw [List.filter_cons, List.filter_cons]
  rw [nearEndA_move, nearEndB_move]
  rfl

/-- C1 counterexample: from a well-formed playing state with non-negative
money and lives, a single tick in which two enemies reach the path end
drives lives to −1: the per-enemy decrement in the movement phase is not
clamped at zero. -/
theorem update_lives_negative :
    0 ≤ endangered.money ∧ 0 ≤ endangered.lives ∧
    (∀ e ∈ endangered.enemies, 0 ≤ e.reward) ∧
    (Game.update endangered).lives < 0 := by
  refine ⟨by norm_num [endangered, initialGame, STARTING_MONEY],
    by norm_num [endangered], ?_, ?_⟩
  · intro e he
    rcases List.mem_cons.mp he with rfl | h2
    · norm_num [nearEndA]
    · rcases List.mem_cons.mp h2 with rfl | h3
      · norm_num [nearEndB]
      · cases h3
  · have hupd : Game.update endangered =
        projectilesStep (towersStep (moveEnemiesStep (spawnStep
          { endangered with frameCount := endangered.frameCount + 1 }))) := by
      unfold Game.update
      rw [if_neg (by simp [endangered])]
    have hsp : spawnStep { endangered with frameCount := endangered.frameCount + 1 } =
        { endangered with frameCount := endangered.frameCount + 1 } :=
      spawnStep_of_complete _ endWave rfl rfl (by simp [endangered])
    rw [hupd, hsp]
    have e2 := (towersStep_fields (moveEnemiesStep
      { endangered with frameCount := endangered.frameCount + 1 })).2.1
    have e3 : (moveEnemiesStep { endangered with frameCount := endangered.frameCount + 1 }).lives
        = (1 : ℤ) - completedCount gamePath [nearEndA, nearEndB] := by
      rw [moveEnemiesStep_eq]
      rfl
    show (projectilesStep _).lives < 0
    rw [show ∀ h : Game, (projectilesStep h).lives = h.lives from fun h => rfl]
    rw [e2, e3, endangered_count]
    norm_num


/-! ### C4: enemy path traversal -/

/-- Euclidean distance between two points, as computed in `Enemy.move`. -/
noncomputable def ptDist (a b : ℝ × ℝ) : ℝ :=
  Real.sqrt ((b.1 - a.1) ^ 2 + (b.2 - a.2) ^ 2)

lemma ptDist_eq (a b : ℝ × ℝ) :
    ptDist a b = Real.sqrt ((b.1 - a.1) ^ 2 + (b.2 - a.2) ^ 2) := rfl

lemma ptDist_nonneg (a b : ℝ × ℝ) : 0 ≤ ptDist a b := Real.sqrt_nonneg _

/-- The non-snapping movement step of `Enemy.move`: advance from `pos` by `s`
units straight toward `w`. -/
noncomputable def stepToward (pos w : ℝ × ℝ) (s : ℝ) : ℝ × ℝ :=
  (pos.1 + (w.1 - pos.1) / ptDist pos w * s, pos.2 + (w.2 - pos.2) / ptDist pos w * s)

/-- Membership of a point on the segment from `a` to `b`. -/
def OnSeg (a b p : ℝ × ℝ) : Prop :=
  ∃ θ : ℝ, 0 ≤ θ ∧ θ ≤ 1 ∧ p.1 = a.1 + θ * (b.1 - a.1) ∧ p.2 = a.2 + θ * (b.2 - a.2)

lemma ptDist_stepToward (pos w : ℝ × ℝ) (s : ℝ) (hs : 0 < s) (hlt : s < ptDist pos w) :
    ptDist (stepToward pos w s) w = ptDist pos w - s := by
  have hd : 0 < ptDist pos w := lt_trans hs hlt
  have hdne : ptDist pos w ≠ 0 := ne_of_gt hd
  have hfac : 0 ≤ 1 - s / ptDist pos w := by
    rw [sub_nonneg, div_le_one hd]
    exact hlt.le
  have h1 : w.1 - (stepToward pos w s).1 = (w.1 - pos.1) * (1 - s / ptDist pos w) := by
    unfold stepToward
    field_simp
    ring
  have h2 : w.2 - (stepToward pos w s).2 = (w.2 - pos.2) * (1 - s / ptDist pos w) := by
    unfold stepToward
    field_simp
    ring
  have hsq : ptDist (stepToward pos w s) w =
      Real.sqrt ((1 - s / ptDist pos w) ^ 2 * ((w.1 - pos.1) ^ 2 + (w.2 - pos.2) ^ 2)) := by
    rw [ptDist_eq (stepToward pos w s) w, h1, h2]
    exact congrArg Real.sqrt (by ring)
  rw [hsq, Real.sqrt_mul (sq_nonneg _), Real.sqrt_sq hfac, ← ptDist_eq pos w]
  field_simp

lemma OnSeg_stepToward (a b pos : ℝ × ℝ) (s : ℝ) (hs : 0 < s) (hlt : s < ptDist pos b)
    (hseg : OnSeg a b pos) : OnSeg a b (stepToward pos b s) := by
  obtain ⟨u, h0, h1, hx, hy⟩ := hseg
  have hd : 0 < ptDist pos b := lt_trans hs hlt
  have hdne : ptDist pos b ≠ 0 := ne_of_gt hd
  have hsd0 : 0 ≤ s / ptDist pos b := le_of_lt (div_pos hs hd)
  have hsd1 : s / ptDist pos b ≤ 1 := by
    rw [div_le_one hd]
    exact hlt.le
  refine ⟨u + s / ptDist pos b * (1 - u), ?_, ?_, ?_, ?_⟩
  · have hh : 0 ≤ s / ptDist pos b * (1 - u) := mul_nonneg hsd0 (by linarith)
    linarith
  · nlinarith [mul_nonneg (sub_nonneg.mpr hsd1) (sub_nonneg.mpr h1)]
  · show pos.1 + (b.1 - pos.1) / ptDist pos b * s =
      a.1 + (u + s / ptDist pos b * (1 - u)) * (b.1 - a.1)
    rw [hx]
    field_simp
    ring
  · show pos.2 + (b.2 - pos.2) / ptDist pos b * s =
      a.2 + (u + s / ptDist pos b * (1 - u)) * (b.2 - a.2)
    rw [hy]
    field_simp
    ring

/-- Iterated `Enemy.move` (keeping only the enemy component). -/
noncomputable def iterMove (path : List (ℤ × ℤ)) (e : Enemy) : ℕ → Enemy
  | 0 => e
  | n + 1 => (Enemy.move path (iterMove path e n)).1

/-- Length of path segment `j`. -/
noncomputable def segLen (path : List (ℤ × ℤ)) (j : ℕ) : ℝ :=
  ptDist (wp path j) (wp path (j + 1))

/-- Total length of the path polyline. -/
noncomputable def pathLength (path : List (ℤ × ℤ)) : ℝ :=
  ∑ j in Finset.range (path.length - 1), segLen path j

/-- Number of `Enemy.move` calls needed to consume a segment of length `d`
at `s` units per call (1 even for a zero-length segment, because the snap
still takes a call). -/
noncomputable def segSteps (s d : ℝ) : ℤ := max 1 ⌈d / s⌉

/-- Remaining number of `Enemy.move` calls until the enemy reports reaching
the end of the path. -/
noncomputable def moveMeasure (path : List (ℤ × ℤ)) (e : Enemy) : ℤ :=
  if path.length - 1 ≤ e.pathIndex then 0
  else segSteps e.speed (nextWpDist path e) +
    ∑ j in Finset.Ico (e.pathIndex + 1) (path.length - 1), segSteps e.speed (segLen path j)

/-- Inductive configuration invariant for an enemy walking the path. -/
def MoveInv (path : List (ℤ × ℤ)) (e : Enemy) : Prop :=
  2 ≤ path.length ∧ 0 < e.speed ∧ e.pathIndex ≤ path.length - 1 ∧
  OnSeg (wp path (min e.pathIndex (path.length - 2)))
    (wp path (min e.pathIndex (path.length - 2) + 1)) (e.x, e.y)

lemma segSteps_pos (s d : ℝ) : 1 ≤ segSteps s d := le_max_left _ _

lemma moveMeasure_lt_case (path : List (ℤ × ℤ)) (e : Enemy)
    (hlt : e.pathIndex < path.length - 1) :
    moveMeasure path e = segSteps e.speed (nextWpDist path e) +
      ∑ j in Finset.Ico (e.pathIndex + 1) (path.length - 1), segSteps e.speed (segLen path j) := by
  unfold moveMeasure
  rw [if_neg (by omega)]

lemma moveMeasure_pos (path : List (ℤ × ℤ)) (e : Enemy)
    (hlt : e.pathIndex < path.length - 1) : 1 ≤ moveMeasure path e := by
  rw [moveMeasure_lt_case path e hlt]
  have h1 := segSteps_pos e.speed (nextWpDist path e)
  have h2 : 0 ≤ ∑ j in Finset.Ico (e.pathIndex + 1) (path.length - 1),
      segSteps e.speed (segLen path j) :=
    Finset.sum_nonneg fun j _ => le_trans zero_le_one (segSteps_pos _ _)
  omega

lemma segSteps_sub (s d : ℝ) (hs : 0 < s) (hsd : s < d) :
    segSteps s (d - s) = segSteps s d - 1 := by
  unfold segSteps
  have h1 : (1 : ℝ) < d / s := (one_lt_div hs).mpr hsd
  have h2 : 1 < ⌈d / s⌉ := by
    rw [Int.lt_ceil]
    exact_mod_cast h1
  have h3 : (d - s) / s = d / s - 1 := by
    field_simp
  rw [h3, show (1 : ℝ) = ((1 : ℤ) : ℝ) by norm_num, Int.ceil_sub_int]
  omega

lemma nextWpDist_eq_ptDist (path : List (ℤ × ℤ)) (e : Enemy) :
    nextWpDist path e = ptDist (e.x, e.y) (wp path (e.pathIndex + 1)) := rfl


lemma sum_Ico_peel (f : ℕ → ℤ) {a b : ℕ} (hab : a < b) :
    ∑ j in Finset.Ico a b, f j = f a + ∑ j in Finset.Ico (a + 1) b, f j := by
  rw [← Finset.sum_Ico_consecutive f (show a ≤ a + 1 by omega) (show a + 1 ≤ b by omega)]
  rw [Nat.Ico_succ_singleton, Finset.sum_singleton]

lemma nextWpDist_move_snap (path : List (ℤ × ℤ)) (e : Enemy) :
    nextWpDist path
      ({ e with pathIndex := e.pathIndex + 1
                x := ((wpZ path (e.pathIndex + 1)).1 : ℝ)
                y := ((wpZ path (e.pathIndex + 1)).2 : ℝ) } : Enemy) =
      segLen path (e.pathIndex + 1) := rfl

lemma nextWpDist_move_step (path : List (ℤ × ℤ)) (e : Enemy) (hs : 0 < e.speed)
    (hlt2 : e.speed < nextWpDist path e) :
    nextWpDist path
      ({ e with
          x := e.x + (((wpZ path (e.pathIndex + 1)).1 : ℝ) - e.x) / nextWpDist path e * e.speed
          y := e.y + (((wpZ path (e.pathIndex + 1)).2 : ℝ) - e.y) / nextWpDist path e * e.speed } :
        Enemy) = nextWpDist path e - e.speed := by
  have h2 : e.speed < ptDist (e.x, e.y) (wp path (e.pathIndex + 1)) := hlt2
  exact ptDist_stepToward (e.x, e.y) (wp path (e.pathIndex + 1)) e.speed hs h2

lemma move_inv (path : List (ℤ × ℤ)) (e : Enemy) (hInv : MoveInv path e) :
    MoveInv path (Enemy.move path e).1 := by
  obtain ⟨hlen, hsp, hle, hseg⟩ := hInv
  by_cases h1 : path.length - 1 ≤ e.pathIndex
  · rw [Enemy.move_of_last h1]
    exact ⟨hlen, hsp, hle, hseg⟩
  · by_cases hd : nextWpDist path e ≤ e.speed
    · by_cases hlast : path.length - 1 ≤ e.pathIndex + 1
      · rw [Enemy.move_of_snap_last h1 hd hlast]
        refine ⟨hlen, hsp, by dsimp only; omega, ?_⟩
        have hmin1 : min (e.pathIndex + 1) (path.length - 2) = path.length - 2 := by omega
        have hmin2 : min e.pathIndex (path.length - 2) = path.length - 2 := by omega
        dsimp only
        rw [hmin1]
        rw [hmin2] at hseg
        exact hseg
      · rw [Enemy.move_of_snap h1 hd hlast]
        refine ⟨hlen, hsp, by dsimp only; omega, ?_⟩
        have hmin1 : min (e.pathIndex + 1) (path.length - 2) = e.pathIndex + 1 := by omega
        dsimp only
        rw [hmin1]
        refine ⟨0, le_refl 0, zero_le_one, ?_, ?_⟩
        · show ((wpZ path (e.pathIndex + 1)).1 : ℝ) =
            (wp path (e.pathIndex + 1)).1 +
              0 * ((wp path (e.pathIndex + 1 + 1)).1 - (wp path (e.pathIndex + 1)).1)
          dsimp [wp]
          ring
        · show ((wpZ path (e.pathIndex + 1)).2 : ℝ) =
            (wp path (e.pathIndex + 1)).2 +
              0 * ((wp path (e.pathIndex + 1 + 1)).2 - (wp path (e.pathIndex + 1)).2)
          dsimp [wp]
          ring
    · rw [Enemy.move_of_step h1 hd]
      have hmin : min e.pathIndex (path.length - 2) = e.pathIndex := by omega
      refine ⟨hlen, hsp, by dsimp only; omega, ?_⟩
      dsimp only
      rw [hmin]
      rw [hmin] at hseg
      have h2 : e.speed < ptDist (e.x, e.y) (wp path (e.pathIndex + 1)) := lt_of_not_le hd
      exact OnSeg_stepToward (wp path e.pathIndex) (wp path (e.pathIndex + 1)) (e.x, e.y)
        e.speed hsp h2 hseg

lemma move_progress (path : List (ℤ × ℤ)) (e : Enemy)
    (hInv : MoveInv path e) (hlt : e.pathIndex < path.length - 1) :
    ((Enemy.move path e).2 = true →
      nextWpDist path e ≤ e.speed ∧ path.length - 1 ≤ e.pathIndex + 1 ∧
      (Enemy.move path e).1 = { e with pathIndex := e.pathIndex + 1 }) ∧
    ((Enemy.move path e).2 = false →
      (Enemy.move path e).1.pathIndex < path.length - 1 ∧
      moveMeasure path (Enemy.move path e).1 ≤ moveMeasure path e - 1) := by
  obtain ⟨hlen, hsp, hle, hseg⟩ := hInv
  have h1 : ¬ path.length - 1 ≤ e.pathIndex := by omega
  by_cases hd : nextWpDist path e ≤ e.speed
  · by_cases hlast : path.length - 1 ≤ e.pathIndex + 1
    · have hmv := Enemy.move_of_snap_last h1 hd hlast
      constructor
      · intro _
        exact ⟨hd, hlast, by rw [hmv]⟩
      · intro hm
        rw [hmv] at hm
        cases hm
    · have hmv := Enemy.move_of_snap h1 hd hlast
      constructor
      · intro hm
        rw [hmv] at hm
        cases hm
      · intro _
        rw [hmv]
        constructor
        · dsimp only
          omega
        · have hlt' : ({ e with pathIndex := e.pathIndex + 1, x := ((wpZ path (e.pathIndex + 1)).1 : ℝ), y := ((wpZ path (e.pathIndex + 1)).2 : ℝ) } : Enemy).pathIndex < path.length - 1 := by
            dsimp only
            omega
          rw [moveMeasure_lt_case _ _ hlt', moveMeasure_lt_case _ _ hlt,
            nextWpDist_move_snap]
          dsimp only
          rw [sum_Ico_peel _ (show e.pathIndex + 1 < path.length - 1 by omega)]
          have hp := segSteps_pos e.speed (nextWpDist path e)
          omega
  · have hmv := Enemy.move_of_step h1 hd
    have hlt2 : e.speed < nextWpDist path e := lt_of_not_le hd
    constructor
    · intro hm
      rw [hmv] at hm
      cases hm
    · intro _
      rw [hmv]
      constructor
      · dsimp only
        omega
      · have hlt' : ({ e with x := e.x + (((wpZ path (e.pathIndex + 1)).1 : ℝ) - e.x) / nextWpDist path e * e.speed, y := e.y + (((wpZ path (e.pathIndex + 1)).2 : ℝ) - e.y) / nextWpDist path e * e.speed } : Enemy).pathIndex < path.length - 1 := by
          dsimp only
          omega
        rw [moveMeasure_lt_case _ _ hlt', moveMeasure_lt_case _ _ hlt,
          nextWpDist_move_step path e hsp hlt2, segSteps_sub _ _ hsp hlt2]
        dsimp only
        omega


lemma iterMove_inv (path : List (ℤ × ℤ)) (e : Enemy) (hInv : MoveInv path e) :
    ∀ n, MoveInv path (iterMove path e n) := by
  intro n
  induction n with
  | zero => exact hInv
  | succ n ih => exact move_inv path (iterMove path e n) ih

lemma iterMove_succ_shift (path : List (ℤ × ℤ)) (e : Enemy) :
    ∀ n, iterMove path e (n + 1) = iterMove path (Enemy.move path e).1 n := by
  intro n
  induction n with
  | zero => rfl
  | succ n ih =>
    show (Enemy.move path (iterMove path e (n + 1))).1 = _
    rw [ih]
    rfl

lemma move_reaches (k : ℕ) :
    ∀ (path : List (ℤ × ℤ)) (e : Enemy), MoveInv path e →
      e.pathIndex < path.length - 1 → moveMeasure path e ≤ k →
      ∃ T : ℕ, (T : ℤ) < moveMeasure path e ∧
        (∀ t < T, (Enemy.move path (iterMove path e t)).2 = false) ∧
        (Enemy.move path (iterMove path e T)).2 = true ∧
        (iterMove path e T).pathIndex < path.length - 1 ∧
        path.length - 1 ≤ (iterMove path e T).pathIndex + 1 ∧
        nextWpDist path (iterMove path e T) ≤ (iterMove path e T).speed ∧
        (Enemy.move path (iterMove path e T)).1 =
          { iterMove path e T with pathIndex := (iterMove path e T).pathIndex + 1 } := by
  induction k with
  | zero =>
    intro path e hInv hlt hle
    have := moveMeasure_pos path e hlt
    omega
  | succ k ih =>
    intro path e hInv hlt hle
    obtain ⟨htrue, hfalse⟩ := move_progress path e hInv hlt
    have hpos := moveMeasure_pos path e hlt
    cases hm : (Enemy.move path e).2 with
    | true =>
      obtain ⟨hd, hlast, heq⟩ := htrue hm
      exact ⟨0, by omega, fun t ht => absurd ht (Nat.not_lt_zero t), hm, hlt, hlast, hd, heq⟩
    | false =>
      obtain ⟨hlt', hmu'⟩ := hfalse hm
      have hInv' := move_inv path e hInv
      obtain ⟨T, hT1, hT2, hT3, hT4, hT5, hT6, hT7⟩ :=
        ih path (Enemy.move path e).1 hInv' hlt' (by omega)
      refine ⟨T + 1, by push_cast; omega, ?_, ?_, ?_, ?_, ?_, ?_⟩
      · intro t ht
        cases t with
        | zero => exact hm
        | succ t =>
          rw [iterMove_succ_shift]
          exact hT2 t (by omega)
      · rw [iterMove_succ_shift]
        exact hT3
      · rw [iterMove_succ_shift]
        exact hT4
      · rw [iterMove_succ_shift]
        exact hT5
      · rw [iterMove_succ_shift]
        exact hT6
      · rw [iterMove_succ_shift]
        exact hT7

lemma speed_pos (ty : EnemyType) : 0 < ty.speed := by
  cases ty <;> norm_num [EnemyType.speed]

lemma mkEnemy_inv (path : List (ℤ × ℤ)) (ty : EnemyType) (id : ℕ)
    (h2 : 2 ≤ path.length) : MoveInv path (mkEnemy id ty path) := by
  refine ⟨h2, speed_pos ty, by dsimp [mkEnemy]; omega, ?_⟩
  have hmin : min (mkEnemy id ty path).pathIndex (path.length - 2) = 0 := by
    dsimp [mkEnemy]
    omega
  rw [hmin]
  refine ⟨0, le_refl 0, zero_le_one, ?_, ?_⟩
  · show ((wpZ path 0).1 : ℝ) = (wp path 0).1 + 0 * ((wp path (0 + 1)).1 - (wp path 0).1)
    dsimp [wp]
    ring
  · show ((wpZ path 0).2 : ℝ) = (wp path 0).2 + 0 * ((wp path (0 + 1)).2 - (wp path 0).2)
    dsimp [wp]
    ring

lemma mkEnemy_measure_le (path : List (ℤ × ℤ)) (ty : EnemyType) (id : ℕ)
    (h2 : 2 ≤ path.length) :
    moveMeasure path (mkEnemy id ty path) ≤
      ⌈pathLength path / ty.speed⌉ + 2 * ((path.length : ℤ) - 1) := by
  have hs : 0 < ty.speed := speed_pos ty
  have hlt : (mkEnemy id ty path).pathIndex < path.length - 1 := by
    dsimp [mkEnemy]
    omega
  rw [moveMeasure_lt_case _ _ hlt]
  have hsp : (mkEnemy id ty path).speed = ty.speed := rfl
  have hnd : nextWpDist path (mkEnemy id ty path) = segLen path 0 := rfl
  have hpi : (mkEnemy id ty path).pathIndex = 0 := rfl
  rw [hsp, hnd, hpi]
  have hcomb : segSteps ty.speed (segLen path 0) +
      ∑ j in Finset.Ico (0 + 1) (path.length - 1), segSteps ty.speed (segLen path j) =
      ∑ j in Finset.Ico 0 (path.length - 1), segSteps ty.speed (segLen path j) :=
    (sum_Ico_peel (fun j => segSteps ty.speed (segLen path j)) (show (0 : ℕ) < path.length - 1 by omega)).symm
  rw [hcomb]
  have hterm : ∀ j ∈ Finset.Ico 0 (path.length - 1),
      segSteps ty.speed (segLen path j) ≤ ⌈segLen path j / ty.speed⌉ + 1 := by
    intro j _
    have hge : (0 : ℤ) ≤ ⌈segLen path j / ty.speed⌉ := by
      apply Int.ceil_nonneg
      exact div_nonneg (ptDist_nonneg _ _) hs.le
    unfold segSteps
    omega
  have h1 : ∑ j in Finset.Ico 0 (path.length - 1), segSteps ty.speed (segLen path j) ≤
      ∑ j in Finset.Ico 0 (path.length - 1), (⌈segLen path j / ty.speed⌉ + 1) :=
    Finset.sum_le_sum hterm
  have h2sum : ∑ j in Finset.Ico 0 (path.length - 1), (⌈segLen path j / ty.speed⌉ + 1) =
      (∑ j in Finset.Ico 0 (path.length - 1), ⌈segLen path j / ty.speed⌉) +
        ((path.length : ℤ) - 1) := by
    rw [Finset.sum_add_distrib, Finset.sum_const, Nat.card_Ico, nsmul_eq_mul, mul_one,
      Nat.sub_zero]
    omega
  have h3 : ∑ j in Finset.Ico 0 (path.length - 1), ⌈segLen path j / ty.speed⌉ ≤
      ⌈pathLength path / ty.speed⌉ + ((path.length : ℤ) - 1) := by
    have hcast : ((∑ j in Finset.Ico 0 (path.length - 1), ⌈segLen path j / ty.speed⌉ : ℤ) : ℝ) ≤
        pathLength path / ty.speed + ((path.length : ℝ) - 1) := by
      push_cast
      calc (∑ j in Finset.Ico 0 (path.length - 1), (⌈segLen path j / ty.speed⌉ : ℝ)) ≤
          ∑ j in Finset.Ico 0 (path.length - 1), (segLen path j / ty.speed + 1) :=
            Finset.sum_le_sum fun j _ => (Int.ceil_lt_add_one _).le
        _ = pathLength path / ty.speed + ((path.length : ℝ) - 1) := by
            rw [Finset.sum_add_distrib, Finset.sum_const, Nat.card_Ico, nsmul_eq_mul, mul_one,
              Nat.sub_zero, ← Finset.sum_div]
            unfold pathLength
            rw [Finset.range_eq_Ico, Nat.cast_sub (show 1 ≤ path.length by omega)]
            norm_num
    have hceil : pathLength path / ty.speed ≤ (⌈pathLength path / ty.speed⌉ : ℝ) :=
      Int.le_ceil _
    have hc2 : ((∑ j in Finset.Ico 0 (path.length - 1), ⌈segLen path j / ty.speed⌉ : ℤ) : ℝ) ≤
        ((⌈pathLength path / ty.speed⌉ + ((path.length : ℤ) - 1) : ℤ) : ℝ) := by
      push_cast
      push_cast at hcast
      linarith
    exact_mod_cast hc2
  omega


/-- C4: an enemy spawned on a path of at least two waypoints always stays on
the polyline (never moving past the final waypoint); there is a first call
`T` of `Enemy.move` reporting completion — within roughly
`⌈pathLength/speed⌉` calls (precisely, fewer than that plus twice the number
of waypoints) — all earlier calls reporting false; on the completing call the
path index is advanced first and the position does not move; and afterwards
the enemy is frozen, every further call reporting completion again. -/
theorem enemy_move_spec (path : List (ℤ × ℤ)) (ty : EnemyType) (id : ℕ)
    (h2 : 2 ≤ path.length) :
    (∀ n, ∃ i, i + 1 < path.length ∧
      OnSeg (wp path i) (wp path (i + 1))
        ((iterMove path (mkEnemy id ty path) n).x, (iterMove path (mkEnemy id ty path) n).y)) ∧
    ∃ T : ℕ,
      (T : ℤ) < ⌈pathLength path / ty.speed⌉ + 2 * (path.length : ℤ) ∧
      (∀ t < T, (Enemy.move path (iterMove path (mkEnemy id ty path) t)).2 = false) ∧
      (Enemy.move path (iterMove path (mkEnemy id ty path) T)).2 = true ∧
      (Enemy.move path (iterMove path (mkEnemy id ty path) T)).1.pathIndex =
        (iterMove path (mkEnemy id ty path) T).pathIndex + 1 ∧
      (Enemy.move path (iterMove path (mkEnemy id ty path) T)).1.x =
        (iterMove path (mkEnemy id ty path) T).x ∧
      (Enemy.move path (iterMove path (mkEnemy id ty path) T)).1.y =
        (iterMove path (mkEnemy id ty path) T).y ∧
      (∀ m, T < m → iterMove path (mkEnemy id ty path) m =
          iterMove path (mkEnemy id ty path) (T + 1) ∧
        (Enemy.move path (iterMove path (mkEnemy id ty path) m)).2 = true) := by
  have hInv := mkEnemy_inv path ty id h2
  constructor
  · intro n
    obtain ⟨hlen, hsp, hle, hseg⟩ := iterMove_inv path (mkEnemy id ty path) hInv n
    exact ⟨min (iterMove path (mkEnemy id ty path) n).pathIndex (path.length - 2),
      by omega, hseg⟩
  · have hpi0 : (mkEnemy id ty path).pathIndex = 0 := rfl
    have hlt0 : (mkEnemy id ty path).pathIndex < path.length - 1 := by omega
    obtain ⟨T, hT1, hT2, hT3, hT4, hT5, hT6, hT7⟩ :=
      move_reaches (moveMeasure path (mkEnemy id ty path)).toNat path (mkEnemy id ty path)
        hInv hlt0 (Int.self_le_toNat _)
    refine ⟨T, ?_, hT2, hT3, ?_, ?_, ?_, ?_⟩
    · have hb := mkEnemy_measure_le path ty id h2
      have h2z : (2 : ℤ) ≤ (path.length : ℤ) := by exact_mod_cast h2
      omega
    · rw [hT7]
    · rw [hT7]
    · rw [hT7]
    · intro m hm
      have hE' : path.length - 1 ≤ (iterMove path (mkEnemy id ty path) (T + 1)).pathIndex := by
        show path.length - 1 ≤ (Enemy.move path (iterMove path (mkEnemy id ty path) T)).1.pathIndex
        rw [hT7]
        dsimp only
        omega
      have hfrozen : ∀ k, iterMove path (mkEnemy id ty path) (T + 1 + k) =
          iterMove path (mkEnemy id ty path) (T + 1) := by
        intro k
        induction k with
        | zero => rfl
        | succ k ih =>
          show (Enemy.move path (iterMove path (mkEnemy id ty path) (T + 1 + k))).1 = _
          rw [ih, Enemy.move_of_last hE']
      have hm' : m = T + 1 + (m - T - 1) := by omega
      rw [hm', hfrozen]
      refine ⟨rfl, ?_⟩
      rw [Enemy.move_of_last hE']

theorem enemy_move_spec_witness :
    2 ≤ ([(0, 0), (3, 0)] : List (ℤ × ℤ)).length ∧
    ∃ T : ℕ,
      (T : ℤ) < ⌈pathLength [(0, 0), (3, 0)] / EnemyType.basic.speed⌉ +
        2 * (([(0, 0), (3, 0)] : List (ℤ × ℤ)).length : ℤ) ∧
      (∀ t < T, (Enemy.move [(0, 0), (3, 0)]
        (iterMove [(0, 0), (3, 0)] (mkEnemy 0 EnemyType.basic [(0, 0), (3, 0)]) t)).2 = false) ∧
      (Enemy.move [(0, 0), (3, 0)]
        (iterMove [(0, 0), (3, 0)] (mkEnemy 0 EnemyType.basic [(0, 0), (3, 0)]) T)).2 = true := by
  refine ⟨by decide, ?_⟩
  obtain ⟨T, h1, h2, h3, h4, h5, h6, h7⟩ :=
    (enemy_move_spec [(0, 0), (3, 0)] EnemyType.basic 0 (by decide)).2
  exact ⟨T, h1, h2, h3⟩

end TowerDefence
